import Mathlib

/-!
Verification of the ChemClub Analyst core against its specification.

The development shallow-embeds the regression engine (RegressionStudio.tsx),
the shape store operations (AppContext), the detection post-processing
(App.tsx, opencvUtils.ts) and the manual draw-commit path (ImageViewer)
over exact rationals and integers.  JavaScript numbers are modelled as ℚ,
pixel colors as ℕ triples, and external primitives (Math.sqrt, the OpenCV
capability) are passed in as explicit function arguments.
-/

namespace ChemClub

/-- Epsilon used by the regression engine and by predict (1e-10 in the source). -/
def eps : ℚ := 1 / 10 ^ 10

/-- Color channels of the regression engine (type ColorChannel in
RegressionStudio.tsx). -/
inductive Channel
  | red | green | blue | cyan | magenta | yellow | black | magnitude
deriving DecidableEq, Repr

/-- RGB to CMYK conversion, from rgbToCmyk in imageUtils: normalize to [0,1],
take k = 1 - max component, return (0,0,0,1) for pure black, otherwise divide
by (1-k). -/
def rgbToCmyk (rgb : ℚ × ℚ × ℚ) : ℚ × ℚ × ℚ × ℚ :=
  let r := rgb.1 / 255
  let g := rgb.2.1 / 255
  let b := rgb.2.2 / 255
  let k := 1 - max r (max g b)
  if k = 1 then (0, 0, 0, 1)
  else ((1 - r - k) / (1 - k), (1 - g - k) / (1 - k), (1 - b - k) / (1 - k), k)

/-- getColorValue from RegressionStudio.tsx.  Math.sqrt is an external numeric
primitive, abstracted as the argument sqrtQ (only the magnitude channel uses
it). -/
def getColorValue (sqrtQ : ℚ → ℚ) (color : ℚ × ℚ × ℚ) (ch : Channel) : ℚ :=
  let cmyk := rgbToCmyk color
  match ch with
  | .red => color.1
  | .green => color.2.1
  | .blue => color.2.2
  | .cyan => cmyk.1 * 100
  | .magenta => cmyk.2.1 * 100
  | .yellow => cmyk.2.2.1 * 100
  | .black => cmyk.2.2.2 * 100
  | .magnitude => sqrtQ (color.1 ^ 2 + color.2.1 ^ 2 + color.2.2 ^ 2)

/-- Per-channel regression model record (interface RegressionModel in types.ts). -/
structure RegressionModel where
  m : ℚ
  b : ℚ
  r2 : ℚ
deriving DecidableEq, Repr

/-- The per-channel OLS fit performed inside runRegression
(RegressionStudio.tsx lines 94-119): one accumulation pass over the joined
points building sumX, sumY, sumXY, sumXX; the channel is skipped (none) when
the absolute denominator n*sumXX - sumX*sumX is below 1e-10; otherwise slope,
intercept and R² are computed, with R² = 0 when ssTot is not positive.
A joined point is (concentration, color). -/
def fitChannel (sqrtQ : ℚ → ℚ) (points : List (ℚ × (ℚ × ℚ × ℚ))) (ch : Channel) :
    Option RegressionModel :=
  let n : ℚ := points.length
  let sums := points.foldl
    (fun (acc : ℚ × ℚ × ℚ × ℚ) pt =>
      let x := pt.1
      let y := getColorValue sqrtQ pt.2 ch
      (acc.1 + x, acc.2.1 + y, acc.2.2.1 + x * y, acc.2.2.2 + x * x))
    (0, 0, 0, 0)
  let sumX := sums.1
  let sumY := sums.2.1
  let sumXY := sums.2.2.1
  let sumXX := sums.2.2.2
  let denominator := n * sumXX - sumX * sumX
  if |denominator| < eps then none
  else
    let m := (n * sumXY - sumX * sumY) / denominator
    let b := (sumY - m * sumX) / n
    let meanY := sumY / n
    let ssTot := points.foldl
      (fun acc pt => acc + (getColorValue sqrtQ pt.2 ch - meanY) ^ 2) 0
    let ssRes := points.foldl
      (fun acc pt => acc + (getColorValue sqrtQ pt.2 ch - (m * pt.1 + b)) ^ 2) 0
    let r2 := if 0 < ssTot then 1 - ssRes / ssTot else 0
    some ⟨m, b, r2⟩

/-- Specification-side sum Σx over the joined points. -/
def olsSumX (points : List (ℚ × (ℚ × ℚ × ℚ))) : ℚ :=
  (points.map Prod.fst).sum

/-- Specification-side sum Σy of the channel values. -/
def olsSumY (sqrtQ : ℚ → ℚ) (points : List (ℚ × (ℚ × ℚ × ℚ))) (ch : Channel) : ℚ :=
  (points.map fun p => getColorValue sqrtQ p.2 ch).sum

/-- Specification-side sum Σxy. -/
def olsSumXY (sqrtQ : ℚ → ℚ) (points : List (ℚ × (ℚ × ℚ × ℚ))) (ch : Channel) : ℚ :=
  (points.map fun p => p.1 * getColorValue sqrtQ p.2 ch).sum

/-- Specification-side sum Σx². -/
def olsSumXX (points : List (ℚ × (ℚ × ℚ × ℚ))) : ℚ :=
  (points.map fun p => p.1 * p.1).sum

/-- Specification-side OLS denominator nΣx² - (Σx)². -/
def olsDen (points : List (ℚ × (ℚ × ℚ × ℚ))) : ℚ :=
  (points.length : ℚ) * olsSumXX points - olsSumX points * olsSumX points

/-- Specification-side OLS slope m = (nΣxy - ΣxΣy) / (nΣx² - (Σx)²). -/
def olsM (sqrtQ : ℚ → ℚ) (points : List (ℚ × (ℚ × ℚ × ℚ))) (ch : Channel) : ℚ :=
  ((points.length : ℚ) * olsSumXY sqrtQ points ch - olsSumX points * olsSumY sqrtQ points ch) /
    olsDen points

/-- Specification-side OLS intercept b = (Σy - mΣx) / n. -/
def olsB (sqrtQ : ℚ → ℚ) (points : List (ℚ × (ℚ × ℚ × ℚ))) (ch : Channel) : ℚ :=
  (olsSumY sqrtQ points ch - olsM sqrtQ points ch * olsSumX points) / (points.length : ℚ)

/-- Specification-side R² = 1 - SSres/SStot, with the 0 convention when SStot
is not positive. -/
def olsR2 (sqrtQ : ℚ → ℚ) (points : List (ℚ × (ℚ × ℚ × ℚ))) (ch : Channel) : ℚ :=
  let meanY := olsSumY sqrtQ points ch / (points.length : ℚ)
  let ssTot := (points.map fun p => (getColorValue sqrtQ p.2 ch - meanY) ^ 2).sum
  let ssRes := (points.map fun p =>
    (getColorValue sqrtQ p.2 ch - (olsM sqrtQ points ch * p.1 + olsB sqrtQ points ch)) ^ 2).sum
  if 0 < ssTot then 1 - ssRes / ssTot else 0

/-- Shape variants (type ShapeType in types.ts). -/
inductive ShapeType
  | rectangle | circle
deriving DecidableEq, Repr

/-- Shape record (interface Shape in types.ts).  width, height and radius are
optional in the source interface and are modelled as Option ℚ. -/
structure Shape where
  id : String
  label : String
  type : ShapeType
  x : ℚ
  y : ℚ
  width : Option ℚ := none
  height : Option ℚ := none
  radius : Option ℚ := none
  color : ℕ × ℕ × ℕ
  imageIndex : ℕ
  auto : Bool := false
deriving DecidableEq, Repr

/-- Committed point (interface CommittedPoint in types.ts): label plus known
concentration. -/
structure CommittedPoint where
  label : String
  y : ℚ
deriving DecidableEq, Repr

/-- Promote a stored 0-255 color to the rationals used by the regression. -/
def colorQ (c : ℕ × ℕ × ℕ) : ℚ × ℚ × ℚ := ((c.1 : ℚ), (c.2.1 : ℚ), (c.2.2 : ℚ))

/-- The join step of runRegression (RegressionStudio.tsx lines 80-84): map
each committed point to the first shape with the same label, dropping the
point when no shape matches. -/
def joinPoints (committedPoints : List CommittedPoint) (shapes : List Shape) :
    List (ℚ × (ℚ × ℚ × ℚ)) :=
  committedPoints.filterMap fun pt =>
    (shapes.find? fun s => s.label == pt.label).map fun s => (pt.y, colorQ s.color)

/-- runRegression (RegressionStudio.tsx lines 79-122): join, then require at
least 2 points (none models the InsufficientData early return), then fit
every channel. -/
def runRegression (sqrtQ : ℚ → ℚ) (committedPoints : List CommittedPoint)
    (shapes : List Shape) : Option (Channel → Option RegressionModel) :=
  let points := joinPoints committedPoints shapes
  if points.length < 2 then none
  else some fun ch => fitChannel sqrtQ points ch

/-- The effect of a regression run on the stored models: on the
InsufficientData path the source alerts and returns without touching
regressionModels, so the old models survive. -/
def runRegressionUpdate (sqrtQ : ℚ → ℚ) (committedPoints : List CommittedPoint)
    (shapes : List Shape) (old : Channel → Option RegressionModel) :
    Channel → Option RegressionModel :=
  match runRegression sqrtQ committedPoints shapes with
  | none => old
  | some models => models

/-- predict (RegressionStudio.tsx lines 167-171): null when the channel has
no model or |m| < 1e-10, else the inverse of the fitted line. -/
def predict (models : Channel → Option RegressionModel) (colorValue : ℚ)
    (ch : Channel) : Option ℚ :=
  match models ch with
  | none => none
  | some model =>
    if |model.m| < eps then none
    else some ((colorValue - model.b) / model.m)

/-- removeImage's shape update (AppContext in types.ts lines 143-154): drop
the removed image's shapes, decrement imageIndex for shapes on later
images. -/
def removeImageShapes (shapes : List Shape) (imageIndex : ℕ) : List Shape :=
  (shapes.filter fun s => s.imageIndex != imageIndex).map fun s =>
    if imageIndex < s.imageIndex then { s with imageIndex := s.imageIndex - 1 } else s

/-- Specification-side renumbering applied to one surviving shape. -/
def reindexAfterRemoval (imageIndex : ℕ) (s : Shape) : Shape :=
  if imageIndex < s.imageIndex then { s with imageIndex := s.imageIndex - 1 } else s

/-- handleAutoDetect's store update (App.tsx lines 72-79): an empty detection
result only alerts and leaves the store alone; a non-empty result replaces
the current image's shapes. -/
def applyDetection (shapes : List Shape) (currentImageIndex : ℕ)
    (newShapes : List Shape) : List Shape :=
  if newShapes.length = 0 then shapes
  else (shapes.filter fun s => s.imageIndex != currentImageIndex) ++ newShapes

/-- The label alphabet 'abcdefghijklmnopqrstuvwxyz' used by every labeling
path. -/
def alphabetLabels : List String :=
  ["a", "b", "c", "d", "e", "f", "g", "h", "i", "j", "k", "l", "m",
   "n", "o", "p", "q", "r", "s", "t", "u", "v", "w", "x", "y", "z"]

/-- getNextLabel from the manual-draw path (ImageViewer): first letter not
used by any shape, otherwise the constant fallback string. -/
def getNextLabel (shapes : List Shape) : String :=
  let usedLabels := shapes.map fun s => s.label
  match alphabetLabels.find? (fun c => !usedLabels.contains c) with
  | some c => c
  | none => "?"

/-- The while loop of the auto-detect labeling, walking the alphabet suffix
that starts at the current labelIndex. -/
def skipUsedAux (existingLabels : List String) : List String → ℕ → ℕ
  | [], labelIndex => labelIndex
  | c :: rest, labelIndex =>
    if c ∈ existingLabels then skipUsedAux existingLabels rest (labelIndex + 1)
    else labelIndex

/-- The while loop of the auto-detect labeling (opencvUtils.ts lines 78-80):
advance labelIndex while it is in range and its letter is already in
existingLabels. -/
def skipUsed (existingLabels : List String) (labelIndex : ℕ) : ℕ :=
  skipUsedAux existingLabels (alphabetLabels.drop labelIndex) labelIndex

/-- Labels assigned by one auto-detect run to n candidates, starting at loop
index i with the given labelIndex: skip used letters, take the letter when
the index is still in range, otherwise the "?<i+1>" fallback, and add the
assigned label to existingLabels (opencvUtils.ts lines 72-84). -/
def autoAssignLabels (existingLabels : List String) (labelIndex i : ℕ) :
    ℕ → List String
  | 0 => []
  | n + 1 =>
    let idx := skipUsed existingLabels labelIndex
    let label :=
      match alphabetLabels[idx]? with
      | some c => c
      | none => "?" ++ toString (i + 1)
    label :: autoAssignLabels (label :: existingLabels) (idx + 1) (i + 1) n

/-- Drawing modes of the manual path that commit shapes. -/
inductive DrawMode
  | rectangle | circle
deriving DecidableEq, Repr

/-- The draft shape tracked while dragging (ImageViewer currentDraftShape);
mouse-down initializes width, height and radius to 0. -/
structure Draft where
  x : ℚ
  y : ℚ
  width : ℚ
  height : ℚ
  radius : ℚ
deriving DecidableEq, Repr

/-- The minimum-size threshold of handleMouseUp (ImageViewer, minSize = 5). -/
def minSize : ℚ := 5

/-- The draw-commit validation and shape construction of handleMouseUp
(ImageViewer lines 534-568): rectangles need |width| and |height| at least
minSize, circles need radius at least minSize; an undersized draft is
discarded (none).  The extracted color and the generated uuid are passed
in. -/
def commitDraft (mode : DrawMode) (draft : Draft) (label : String)
    (newId : String) (imageIndex : ℕ) (color : ℕ × ℕ × ℕ) : Option Shape :=
  match mode with
  | .rectangle =>
    if abs draft.width < minSize ∨ abs draft.height < minSize then none
    else some
      { id := newId, label := label, type := ShapeType.rectangle,
        x := draft.x, y := draft.y, width := some draft.width,
        height := some draft.height, radius := some draft.radius,
        color := color, imageIndex := imageIndex }
  | .circle =>
    if draft.radius < minSize then none
    else some
      { id := newId, label := label, type := ShapeType.circle,
        x := draft.x, y := draft.y, width := some draft.width,
        height := some draft.height, radius := some draft.radius,
        color := color, imageIndex := imageIndex }

/-- A full manual draw commit: validate the draft, label it with
getNextLabel, and append it to the store (addShape in types.ts lines
127-129). -/
def handleDrawCommit (shapes : List Shape) (mode : DrawMode) (draft : Draft)
    (newId : String) (imageIndex : ℕ) (color : ℕ × ℕ × ℕ) : List Shape :=
  match commitDraft mode draft (getNextLabel shapes) newId imageIndex color with
  | none => shapes
  | some s => shapes ++ [s]

/-- Bool-level check that two stored shapes share a label. -/
def hasDuplicateLabels (shapes : List Shape) : Bool :=
  (shapes.map fun s => s.label).length != (shapes.map fun s => s.label).dedup.length

/-- Detection settings (interface DetectionSettings in types.ts), restricted
to the numeric fields the embedded operations read. -/
structure DetectionSettings where
  param1 : ℚ
  param2 : ℚ
  minRadius : ℕ
  maxRadius : ℕ
  restrictedArea : ℕ
  minArea : ℚ
  maxArea : ℚ
  epsilon : ℚ
deriving DecidableEq, Repr

/-- One contour as returned by the external OpenCV capability for a
rectangle-detection run: its area (cv.contourArea), the vertex count of its
polygon approximation at tolerance epsilon × perimeter (cv.approxPolyDP),
and the axis-aligned bounding rectangle of that polygon (cv.boundingRect). -/
structure Contour where
  area : ℚ
  perimeter : ℚ
  approxRows : ℕ
  rectX : ℚ
  rectY : ℚ
  rectW : ℚ
  rectH : ℚ
deriving DecidableEq, Repr

/-- The contour filter of autoDetectRectangles (opencvUtils.ts lines
146-162): skip when area is outside [minArea, maxArea], require exactly 4
approximated vertices, require the bounding rectangle's aspect to be
strictly between 0.5 and 2.0. -/
def rectPasses (settings : DetectionSettings) (c : Contour) : Bool :=
  !(decide (c.area < settings.minArea) || decide (settings.maxArea < c.area)) &&
  (c.approxRows == 4) &&
  (decide ((1 : ℚ) / 2 < c.rectW / c.rectH) && decide (c.rectW / c.rectH < 2))

/-- The emission loop of autoDetectRectangles (opencvUtils.ts lines 146-187):
for each contour i, if every filter passes, assign the next unused label
(letter, or the "?<i+1>" fallback), sample the color (colorOf, standing for
extractAverageColorRect on the canvas), and emit a rectangle shape.  idOf
stands for the external uuid generator. -/
def rectDetectLoop (settings : DetectionSettings)
    (colorOf : Contour → ℕ × ℕ × ℕ) (idOf : ℕ → String) (imageIndex : ℕ) :
    List String → ℕ → ℕ → List Contour → List Shape
  | _, _, _, [] => []
  | existingLabels, labelIndex, i, c :: rest =>
    if rectPasses settings c then
      let idx := skipUsed existingLabels labelIndex
      let label :=
        match alphabetLabels[idx]? with
        | some l => l
        | none => "?" ++ toString (i + 1)
      { id := idOf i, label := label, type := ShapeType.rectangle,
        x := c.rectX, y := c.rectY, width := some c.rectW,
        height := some c.rectH, color := colorOf c,
        imageIndex := imageIndex, auto := true } ::
        rectDetectLoop settings colorOf idOf imageIndex
          (label :: existingLabels) (idx + 1) (i + 1) rest
    else rectDetectLoop settings colorOf idOf imageIndex
      existingLabels labelIndex (i + 1) rest

/-- autoDetectRectangles entry point over the contours produced by the
external Canny + findContours capability. -/
def autoDetectRectangles (settings : DetectionSettings)
    (colorOf : Contour → ℕ × ℕ × ℕ) (idOf : ℕ → String) (imageIndex : ℕ)
    (existingLabels : List String) (contours : List Contour) : List Shape :=
  rectDetectLoop settings colorOf idOf imageIndex existingLabels 0 0 contours

/-- One circle candidate as returned by cv.HoughCircles. -/
structure CircleCandidate where
  x : ℚ
  y : ℚ
  radius : ℚ
deriving DecidableEq, Repr

/-- JavaScript Math.round: floor of the value plus one half. -/
def roundQ (q : ℚ) : ℤ := ⌊q + 1 / 2⌋

/-- The emission loop of autoDetectCircles (opencvUtils.ts lines 72-100):
label every candidate, sample its color (colorOf, standing for
extractAverageColor on the canvas at the inset radius), emit a circle shape
with rounded geometry. -/
def circleDetectLoop (colorOf : CircleCandidate → ℕ × ℕ × ℕ)
    (idOf : ℕ → String) (imageIndex : ℕ) :
    List String → ℕ → ℕ → List CircleCandidate → List Shape
  | _, _, _, [] => []
  | existingLabels, labelIndex, i, c :: rest =>
    let idx := skipUsed existingLabels labelIndex
    let label :=
      match alphabetLabels[idx]? with
      | some l => l
      | none => "?" ++ toString (i + 1)
    { id := idOf i, label := label, type := ShapeType.circle,
      x := (roundQ c.x : ℚ), y := (roundQ c.y : ℚ),
      radius := some (roundQ c.radius : ℚ), color := colorOf c,
      imageIndex := imageIndex, auto := true } ::
      circleDetectLoop colorOf idOf imageIndex
        (label :: existingLabels) (idx + 1) (i + 1) rest

/-- autoDetectCircles entry point over the candidates produced by
cv.HoughCircles (the version present in src/src/lib/opencvUtils.ts, which
takes no region of interest). -/
def autoDetectCircles (colorOf : CircleCandidate → ℕ × ℕ × ℕ)
    (idOf : ℕ → String) (imageIndex : ℕ) (existingLabels : List String)
    (candidates : List CircleCandidate) : List Shape :=
  circleDetectLoop colorOf idOf imageIndex existingLabels 0 0 candidates

/-- Region-of-interest rectangle (boundingBox in types.ts AppState). -/
structure BoundingBox where
  x : ℚ
  y : ℚ
  width : ℚ
  height : ℚ
deriving DecidableEq, Repr

/-- Modelled from the spec: the inclusion rule for ROI-restricted circle
detection — a candidate is kept when its center lies within the ROI bounds
(inclusive center-in-ROI rule, the first of the two rules §4.2 step 4
allows). -/
def centerInRoi (roi : BoundingBox) (c : CircleCandidate) : Bool :=
  decide (roi.x ≤ c.x) && decide (c.x ≤ roi.x + roi.width) &&
  decide (roi.y ≤ c.y) && decide (c.y ≤ roi.y + roi.height)

/-- Modelled from the spec: the ROI-aware circle detection entry point.  The
caller (App.tsx handleAutoDetect) passes the bounding box as a fifth
argument, but the autoDetectCircles revision present under src declares only
four parameters, so the ROI-aware body is missing from the sources.  Per
spec §4.2 step 4, when a ROI is supplied only candidates inside the ROI are
considered, and candidates outside it are discarded before labeling and
sampling. -/
def autoDetectCirclesRoi (colorOf : CircleCandidate → ℕ × ℕ × ℕ)
    (idOf : ℕ → String) (imageIndex : ℕ) (existingLabels : List String)
    (candidates : List CircleCandidate) (roi : Option BoundingBox) : List Shape :=
  let kept :=
    match roi with
    | none => candidates
    | some box => candidates.filter fun c => centerInRoi box c
  autoDetectCircles colorOf idOf imageIndex existingLabels kept

/-- The pixel offsets inside the sampling window that pass the inclusive
circular mask test of extractAverageColor (opencvUtils.ts lines 217-229):
the double loop over the size × size window keeps (px, py) exactly when
(px - radius)² + (py - radius)² ≤ radius². -/
def discPixels (radius : ℕ) : List (ℕ × ℕ) :=
  (List.range (2 * radius)).flatMap fun (py : ℕ) =>
    (List.range (2 * radius)).filterMap fun (px : ℕ) =>
      if ((px : ℤ) - radius) ^ 2 + ((py : ℤ) - radius) ^ 2 ≤ (radius : ℤ) ^ 2 then
        some (px, py)
      else none

/-- JavaScript Math.round(a / b) for naturals with b > 0. -/
def roundDiv (a b : ℕ) : ℕ := (2 * a + b) / (2 * b)

/-- extractAverageColor (opencvUtils.ts lines 200-233): window top-left at
(max 0 (centerX - radius), max 0 (centerY - radius)), window side 2·radius,
average of the channel values of the pixels passing the circular mask test,
each channel rounded; (0,0,0) when the window or the mask is empty.  img is
the pixel lookup standing for the canvas getImageData data. -/
def extractAverageColor (img : ℤ → ℤ → ℕ × ℕ × ℕ) (centerX centerY : ℤ)
    (radius : ℕ) : ℕ × ℕ × ℕ :=
  let x := max 0 (centerX - radius)
  let y := max 0 (centerY - radius)
  let size := 2 * radius
  if size = 0 then (0, 0, 0)
  else
    let pixels := discPixels radius
    let count := pixels.length
    if count = 0 then (0, 0, 0)
    else
      let rs := (pixels.map fun p => (img (x + p.1) (y + p.2)).1).sum
      let gs := (pixels.map fun p => (img (x + p.1) (y + p.2)).2.1).sum
      let bs := (pixels.map fun p => (img (x + p.1) (y + p.2)).2.2).sum
      (roundDiv rs count, roundDiv gs count, roundDiv bs count)

/-- Circle color sampling as invoked by autoDetectCircles (opencvUtils.ts
line 86-87): the inset sampling radius is
max(1, floor(radius × restrictedArea / 100)). -/
def sampleCircleColor (img : ℤ → ℤ → ℕ × ℕ × ℕ) (centerX centerY : ℤ)
    (radius : ℕ) (restrictedArea : ℕ) : ℕ × ℕ × ℕ :=
  extractAverageColor img centerX centerY (max 1 (radius * restrictedArea / 100))

/-- Synthetic test image: pure red on the inclusive disc of radius bigR
around (centerX, centerY), pure blue outside it. -/
def redBlueImg (centerX centerY : ℤ) (bigR : ℕ) : ℤ → ℤ → ℕ × ℕ × ℕ :=
  fun ix iy =>
    if (ix - centerX) ^ 2 + (iy - centerY) ^ 2 ≤ (bigR : ℤ) ^ 2 then (255, 0, 0)
    else (0, 0, 255)

/-- A placeholder for the external Math.sqrt in concrete instantiations that
never read the magnitude channel. -/
def zeroSqrt : ℚ → ℚ := fun _ => 0

/-- Concrete demo shapes and committed points. -/
def demoShapeA : Shape :=
  { id := "s1", label := "a", type := ShapeType.circle, x := 0, y := 0,
    radius := some 10, color := (10, 0, 0), imageIndex := 0 }

def demoShapeB : Shape :=
  { id := "s2", label := "b", type := ShapeType.circle, x := 5, y := 5,
    radius := some 10, color := (20, 0, 0), imageIndex := 0 }

def demoShapes : List Shape := [demoShapeA, demoShapeB]

def demoPoints : List CommittedPoint := [⟨"a", 1⟩, ⟨"b", 2⟩]

/-- A committed point whose label matches no demo shape. -/
def orphanPoint : CommittedPoint := ⟨"z", 5⟩

/-- An empty stored-models table. -/
def noModels : Channel → Option RegressionModel := fun _ => none

def demoModel : RegressionModel := ⟨10, 3, 1⟩

def demoModels : Channel → Option RegressionModel := fun _ => some demoModel

/-- Concrete shapes on images 0, 1 and 2 for the removeImage example. -/
def c3Shape0 : Shape :=
  { id := "t0", label := "a", type := ShapeType.circle, x := 0, y := 0,
    radius := some 10, color := (0, 0, 0), imageIndex := 0 }

def c3Shape1 : Shape :=
  { id := "t1", label := "b", type := ShapeType.circle, x := 0, y := 0,
    radius := some 10, color := (0, 0, 0), imageIndex := 1 }

def c3Shape2 : Shape :=
  { id := "t2", label := "c", type := ShapeType.circle, x := 0, y := 0,
    radius := some 10, color := (0, 0, 0), imageIndex := 2 }

def c3Shapes : List Shape := [c3Shape0, c3Shape1, c3Shape2]

/-- c3Shape2 after image 1 is removed: renumbered onto image 1. -/
def c3Shape2After : Shape :=
  { id := "t2", label := "c", type := ShapeType.circle, x := 0, y := 0,
    radius := some 10, color := (0, 0, 0), imageIndex := 1 }

/-- A valid circle draft (radius 9 is above the minimum size). -/
def dupDraft : Draft := ⟨0, 0, 0, 0, 9⟩

/-- Repeated manual circle draws, as a sequence of draw-commit operations. -/
def addManyCircles (shapes : List Shape) : ℕ → List Shape
  | 0 => shapes
  | n + 1 =>
    addManyCircles
      (handleDrawCommit shapes DrawMode.circle dupDraft ("m" ++ toString n) 0 (0, 0, 0)) n

/-- A rectangle draft dragged right-to-left: negative width of magnitude 10. -/
def negDraft : Draft := ⟨0, 0, -10, 10, 0⟩

/-- The shape that the negative-width draft commits. -/
def negShape : Shape :=
  { id := "n1", label := "a", type := ShapeType.rectangle, x := 0, y := 0,
    width := some (-10), height := some 10, radius := some 0,
    color := (0, 0, 0), imageIndex := 0 }

/-- A valid circle draft with distinct coordinates, for witnesses. -/
def c9Draft : Draft := ⟨1, 2, 0, 0, 9⟩

/-- The shape that c9Draft commits. -/
def c9Shape : Shape :=
  { id := "w9", label := "k", type := ShapeType.circle, x := 1, y := 2,
    width := some 0, height := some 0, radius := some 9,
    color := (1, 2, 3), imageIndex := 3 }

/-- Shapes for the detection-replace example: one on image 0, one detected on
image 1. -/
def c10old : Shape :=
  { id := "o1", label := "a", type := ShapeType.circle, x := 0, y := 0,
    radius := some 10, color := (0, 0, 0), imageIndex := 0 }

def c10new : Shape :=
  { id := "d1", label := "b", type := ShapeType.circle, x := 1, y := 1,
    radius := some 10, color := (0, 0, 0), imageIndex := 1, auto := true }

/-- Demo detection settings for the rectangle filters. -/
def demoSettings : DetectionSettings :=
  { param1 := 30, param2 := 40, minRadius := 10, maxRadius := 100,
    restrictedArea := 70, minArea := 50, maxArea := 200, epsilon := 1 / 50 }

/-- A contour passing every rectangle filter. -/
def goodContour : Contour :=
  { area := 100, perimeter := 40, approxRows := 4,
    rectX := 0, rectY := 0, rectW := 30, rectH := 20 }

/-- A contour rejected by the area filter. -/
def badContour : Contour :=
  { area := 10, perimeter := 40, approxRows := 4,
    rectX := 0, rectY := 0, rectW := 30, rectH := 20 }

def demoRectColor : Contour → ℕ × ℕ × ℕ := fun _ => (9, 9, 9)

def demoCircleColor : CircleCandidate → ℕ × ℕ × ℕ := fun _ => (1, 1, 1)

def demoIds : ℕ → String := fun _ => "u"

/-- Demo region of interest and circle candidates inside / outside it. -/
def demoRoi : BoundingBox := ⟨0, 0, 100, 100⟩

def inCand : CircleCandidate := ⟨10, 10, 5⟩

def outCand : CircleCandidate := ⟨500, 500, 5⟩

lemma foldl_add_map {α : Type} (f : α → ℚ) (l : List α) (c : ℚ) :
    l.foldl (fun a x => a + f x) c = c + (l.map f).sum := by
  induction l generalizing c with
  | nil => simp
  | cons hd tl ih => simp [ih, add_assoc]

lemma foldl_ols_sums (sqrtQ : ℚ → ℚ) (ch : Channel)
    (l : List (ℚ × (ℚ × ℚ × ℚ))) (a b c d : ℚ) :
    l.foldl
      (fun (acc : ℚ × ℚ × ℚ × ℚ) pt =>
        let x := pt.1
        let y := getColorValue sqrtQ pt.2 ch
        (acc.1 + x, acc.2.1 + y, acc.2.2.1 + x * y, acc.2.2.2 + x * x))
      (a, b, c, d) =
      (a + olsSumX l, b + olsSumY sqrtQ l ch, c + olsSumXY sqrtQ l ch, d + olsSumXX l) := by
  induction l generalizing a b c d with
  | nil => simp [olsSumX, olsSumY, olsSumXY, olsSumXX]
  | cons hd tl ih =>
    simp only [List.foldl_cons, ih, olsSumX, olsSumY, olsSumXY, olsSumXX,
      List.map_cons, List.sum_cons]
    refine Prod.ext ?_ (Prod.ext ?_ (Prod.ext ?_ ?_)) <;> dsimp <;> ring

/-- C1: for every regression run, fitChannel computes each channel's slope and
intercept by the closed-form OLS sums m = (nΣxy - ΣxΣy)/(nΣx² - (Σx)²) and
b = (Σy - mΣx)/n with x the concentration and y the channel value, omitting
from the result any channel whose absolute denominator is below 1e-10; and
fitting the collinear points (1,10),(2,20),(3,30) on the red channel yields
exactly m = 10, b = 0, r2 = 1. -/
theorem fitChannel_closed_form_ols :
    (∀ (sqrtQ : ℚ → ℚ) (points : List (ℚ × (ℚ × ℚ × ℚ))) (ch : Channel),
      fitChannel sqrtQ points ch =
        if |olsDen points| < eps then none
        else some ⟨olsM sqrtQ points ch, olsB sqrtQ points ch, olsR2 sqrtQ points ch⟩) ∧
    fitChannel (fun _ => 0)
        [(1, (10, 0, 0)), (2, (20, 0, 0)), (3, (30, 0, 0))] Channel.red =
      some ⟨10, 0, 1⟩ := by
  have hgen : ∀ (sqrtQ : ℚ → ℚ) (points : List (ℚ × (ℚ × ℚ × ℚ))) (ch : Channel),
      fitChannel sqrtQ points ch =
        if |olsDen points| < eps then none
        else some ⟨olsM sqrtQ points ch, olsB sqrtQ points ch, olsR2 sqrtQ points ch⟩ := by
    intro sqrtQ points ch
    simp only [fitChannel, foldl_ols_sums, zero_add, foldl_add_map,
      olsDen, olsM, olsB, olsR2]
  refine ⟨hgen, ?_⟩
  rw [hgen]
  norm_num [olsDen, olsM, olsB, olsR2, olsSumX, olsSumY, olsSumXY, olsSumXX,
    getColorValue, eps]

/-- C5: for every fitted model with |m| at least the fitting epsilon 1e-10,
predict inverts the line exactly (predict (m·x + b) = x), and predict signals
none whenever the channel has no model or |m| is below that same epsilon. -/
theorem predict_inverse_law :
    (∀ (models : Channel → Option RegressionModel) (ch : Channel)
       (model : RegressionModel) (x : ℚ),
      models ch = some model → eps ≤ |model.m| →
      predict models (model.m * x + model.b) ch = some x) ∧
    (∀ (models : Channel → Option RegressionModel) (ch : Channel) (v : ℚ),
      models ch = none → predict models v ch = none) ∧
    (∀ (models : Channel → Option RegressionModel) (ch : Channel)
       (model : RegressionModel) (v : ℚ),
      models ch = some model → |model.m| < eps → predict models v ch = none) := by
  refine ⟨?_, ?_, ?_⟩
  · intro models ch model x hm hge
    have hne : model.m ≠ 0 := by
      intro h0
      rw [h0, abs_zero] at hge
      exact absurd hge (by norm_num [eps])
    simp only [predict, hm]
    rw [if_neg (not_lt.mpr hge), add_sub_cancel_right, mul_div_cancel_left₀ x hne]
  · intro models ch v hm
    simp [predict, hm]
  · intro models ch model v hm hlt
    simp [predict, hm, hlt]

/-- Witness for C5 at the concrete model m = 10, b = 3 and x = 5. -/
theorem predict_inverse_law_witness :
    demoModels Channel.red = some demoModel ∧ eps ≤ |demoModel.m| ∧
      predict demoModels (demoModel.m * 5 + demoModel.b) Channel.red = some 5 := by
  have habs : eps ≤ |demoModel.m| := by
    have : |demoModel.m| = 10 := by
      rw [show demoModel.m = 10 from rfl]
      exact abs_of_pos (by norm_num)
    rw [this, eps]
    norm_num
  exact ⟨rfl, habs, predict_inverse_law.1 demoModels Channel.red demoModel 5 rfl habs⟩

/-- C4: the regression run joins committed points to shapes by label and
silently drops any committed point whose label matches no shape; with fewer
than 2 joined points it fails, leaving the stored models unchanged; with at
least 2 joined points it succeeds, so an orphaned point never causes a
failure. -/
theorem runRegression_join_orphans_insufficient :
    (∀ (committedPoints₁ committedPoints₂ : List CommittedPoint)
       (pt : CommittedPoint) (shapes : List Shape),
      shapes.all (fun s => s.label != pt.label) = true →
      joinPoints (committedPoints₁ ++ pt :: committedPoints₂) shapes =
        joinPoints (committedPoints₁ ++ committedPoints₂) shapes) ∧
    (∀ (sqrtQ : ℚ → ℚ) (committedPoints : List CommittedPoint)
       (shapes : List Shape) (old : Channel → Option RegressionModel),
      (joinPoints committedPoints shapes).length < 2 →
      runRegressionUpdate sqrtQ committedPoints shapes old = old) ∧
    (∀ (sqrtQ : ℚ → ℚ) (committedPoints : List CommittedPoint)
       (shapes : List Shape),
      2 ≤ (joinPoints committedPoints shapes).length →
      (runRegression sqrtQ committedPoints shapes).isSome = true) := by
  refine ⟨?_, ?_, ?_⟩
  · intro cps₁ cps₂ pt shapes hall
    have hfind : shapes.find? (fun s => s.label == pt.label) = none := by
      rw [List.find?_eq_none]
      intro s hs
      have := List.all_eq_true.mp hall s hs
      simpa using this
    simp [joinPoints, List.filterMap_append, List.filterMap_cons, hfind]
  · intro sqrtQ cps shapes old hlt
    simp [runRegressionUpdate, runRegression, if_pos hlt]
  · intro sqrtQ cps shapes hge
    simp [runRegression, if_neg (not_lt.mpr hge)]

/-- Witness for C4: the orphaned point "z" is dropped from the join of the
two demo shapes, an empty committed list leaves the stored models unchanged,
and two valid points plus the orphan still make the run succeed. -/
theorem runRegression_join_orphans_insufficient_witness :
    demoShapes.all (fun s => s.label != orphanPoint.label) = true ∧
    joinPoints (demoPoints ++ orphanPoint :: []) demoShapes =
      joinPoints (demoPoints ++ []) demoShapes ∧
    (joinPoints [] demoShapes).length < 2 ∧
    runRegressionUpdate zeroSqrt [] demoShapes noModels = noModels ∧
    2 ≤ (joinPoints (demoPoints ++ [orphanPoint]) demoShapes).length ∧
    (runRegression zeroSqrt (demoPoints ++ [orphanPoint]) demoShapes).isSome = true := by
  refine ⟨by decide, ?_, by decide, ?_, by decide, ?_⟩
  · exact runRegression_join_orphans_insufficient.1 demoPoints [] orphanPoint demoShapes
      (by decide)
  · exact runRegression_join_orphans_insufficient.2.1 zeroSqrt [] demoShapes noModels
      (by decide)
  · exact runRegression_join_orphans_insufficient.2.2 zeroSqrt
      (demoPoints ++ [orphanPoint]) demoShapes (by decide)

/-- C3: removeImage removes exactly the shapes of the removed image and
decrements imageIndex for every remaining shape on a later image: every
survivor is the renumbering of a kept original shape, every kept original
survives renumbered, and the [0,1,2] example ends with the former image-2
shape on image 1 and no shape on image 2. -/
theorem removeImage_reindexes :
    (∀ (shapes : List Shape) (k : ℕ),
      (removeImageShapes shapes k).Forall
        (fun t => ∃ s, s ∈ shapes ∧ (s.imageIndex == k) = false ∧
          t = reindexAfterRemoval k s)) ∧
    (∀ (shapes : List Shape) (k : ℕ),
      shapes.Forall
        (fun s => s.imageIndex = k ∨
          reindexAfterRemoval k s ∈ removeImageShapes shapes k)) ∧
    removeImageShapes c3Shapes 1 = [c3Shape0, c3Shape2After] := by
  refine ⟨?_, ?_, by decide⟩
  · intro shapes k
    rw [List.forall_iff_forall_mem]
    intro t ht
    simp only [removeImageShapes, List.mem_map, List.mem_filter] at ht
    obtain ⟨s, ⟨hs, hne⟩, rfl⟩ := ht
    exact ⟨s, hs, by simpa using hne, rfl⟩
  · intro shapes k
    rw [List.forall_iff_forall_mem]
    intro s hs
    by_cases h : s.imageIndex = k
    · exact Or.inl h
    · refine Or.inr ?_
      simp only [removeImageShapes, List.mem_map]
      exact ⟨s, List.mem_filter.mpr ⟨hs, by simpa using h⟩, rfl⟩

/-- C10: an auto-detection run that returns zero shapes leaves the store
untouched; a non-empty result keeps every shape of other images, adds every
detected shape, and everything in the new store is either freshly detected
or an old shape of another image. -/
theorem autoDetect_empty_preserves_store :
    (∀ (shapes : List Shape) (cur : ℕ), applyDetection shapes cur [] = shapes) ∧
    (∀ (shapes : List Shape) (cur : ℕ) (n : Shape) (rest : List Shape),
      shapes.Forall
        (fun s => s.imageIndex = cur ∨ s ∈ applyDetection shapes cur (n :: rest)) ∧
      (n :: rest).Forall (fun s => s ∈ applyDetection shapes cur (n :: rest)) ∧
      (applyDetection shapes cur (n :: rest)).Forall
        (fun t => t ∈ n :: rest ∨ (t ∈ shapes ∧ (t.imageIndex == cur) = false))) := by
  constructor
  · intro shapes cur
    simp [applyDetection]
  · intro shapes cur n rest
    have hrw : applyDetection shapes cur (n :: rest) =
        (shapes.filter fun s => s.imageIndex != cur) ++ (n :: rest) := by
      simp [applyDetection]
    refine ⟨?_, ?_, ?_⟩ <;> rw [List.forall_iff_forall_mem] <;> intro s hs
    · by_cases h : s.imageIndex = cur
      · exact Or.inl h
      · refine Or.inr ?_
        rw [hrw]
        exact List.mem_append_left _ (List.mem_filter.mpr ⟨hs, by simpa using h⟩)
    · rw [hrw]
      exact List.mem_append_right _ hs
    · rw [hrw] at hs
      rcases List.mem_append.mp hs with hin | hin
      · have := List.mem_filter.mp hin
        exact Or.inr ⟨this.1, by simpa using this.2⟩
      · exact Or.inl hin

/-- C9 counterexample: a rectangle draft dragged right-to-left (width -10,
height 10) passes the minimum-size check, is committed into the store, and
carries a negative stored width, so stored rectangle geometry is not always
positive. -/
theorem undersized_discard_counterexample :
    commitDraft DrawMode.rectangle negDraft "a" "n1" 0 (0, 0, 0) = some negShape ∧
    negShape.width = some (-10) ∧ ((-10 : ℚ) < 0) := by
  have h : ¬(abs negDraft.width < minSize ∨ abs negDraft.height < minSize) := by
    rw [show negDraft.width = -10 from rfl, show negDraft.height = 10 from rfl]
    push_neg
    constructor
    · rw [abs_of_nonpos (by norm_num : (-10 : ℚ) ≤ 0)]
      norm_num [minSize]
    · rw [abs_of_nonneg (by norm_num : (0 : ℚ) ≤ 10)]
      norm_num [minSize]
  refine ⟨?_, rfl, by norm_num⟩
  simp only [commitDraft]
  rw [if_neg h]
  rfl

/-- C9 amended: every shape the manual draw path commits satisfies the
minimum-size threshold — circles have radius at least 5 (hence positive),
rectangles have |width| and |height| at least 5 — but rectangle width and
height keep the drag's sign and may be negative, so strict positivity holds
only up to absolute value. -/
theorem undersized_discard_amended :
    ∀ (mode : DrawMode) (draft : Draft) (label newId : String) (imageIndex : ℕ)
      (color : ℕ × ℕ × ℕ) (s : Shape),
      commitDraft mode draft label newId imageIndex color = some s →
      (s.type = ShapeType.rectangle →
        s.width.isSome = true ∧ s.height.isSome = true ∧
        minSize ≤ |s.width.getD 0| ∧ minSize ≤ |s.height.getD 0|) ∧
      (s.type = ShapeType.circle →
        s.radius.isSome = true ∧ minSize ≤ s.radius.getD 0 ∧ 0 < s.radius.getD 0) := by
  intro mode draft label newId imageIndex color s hcommit
  cases mode with
  | rectangle =>
    simp only [commitDraft] at hcommit
    split at hcommit
    · exact absurd hcommit (by simp)
    · rename_i hsize
      push_neg at hsize
      injection hcommit with hs
      subst hs
      refine ⟨fun _ => ?_, fun hty => ?_⟩
      · simpa using hsize
      · simp at hty
  | circle =>
    simp only [commitDraft] at hcommit
    split at hcommit
    · exact absurd hcommit (by simp)
    · rename_i hsize
      rw [not_lt] at hsize
      injection hcommit with hs
      subst hs
      refine ⟨fun hty => ?_, fun _ => ?_⟩
      · simp at hty
      refine ⟨rfl, by simpa using hsize, ?_⟩
      have h5 : (0 : ℚ) < minSize := by norm_num [minSize]
      simpa using lt_of_lt_of_le h5 hsize

/-- Witness for C9 amended: the committed circle of radius 9 satisfies the
size bound and has positive radius. -/
theorem undersized_discard_amended_witness :
    commitDraft DrawMode.circle c9Draft "k" "w9" 3 (1, 2, 3) = some c9Shape ∧
    minSize ≤ c9Shape.radius.getD 0 ∧ 0 < c9Shape.radius.getD 0 := by
  have hc : commitDraft DrawMode.circle c9Draft "k" "w9" 3 (1, 2, 3) = some c9Shape := by
    decide
  have h := (undersized_discard_amended DrawMode.circle c9Draft "k" "w9" 3 (1, 2, 3)
    c9Shape hc).2 rfl
  exact ⟨hc, h.2.1, h.2.2⟩

lemma hasDuplicateLabels_eq_false_iff (shapes : List Shape) :
    hasDuplicateLabels shapes = false ↔ (shapes.map fun s => s.label).Nodup := by
  unfold hasDuplicateLabels
  rw [bne_eq_false_iff_eq]
  constructor
  · intro h
    have hsub := List.dedup_sublist (shapes.map fun s => s.label)
    have heq := hsub.eq_of_length h.symm
    rw [← heq]
    exact List.nodup_dedup _
  · intro h
    rw [List.dedup_eq_self.mpr h]

lemma getNextLabel_fresh (shapes : List Shape)
    (h : alphabetLabels.any
      (fun c => !((shapes.map fun s => s.label).contains c)) = true) :
    alphabetLabels.contains (getNextLabel shapes) = true ∧
      (shapes.map fun s => s.label).contains (getNextLabel shapes) = false := by
  unfold getNextLabel
  have hsome :
      (alphabetLabels.find?
        (fun c => !((shapes.map fun s => s.label).contains c))).isSome := by
    rw [List.find?_isSome]
    obtain ⟨c, hc, hpc⟩ := List.any_eq_true.mp h
    exact ⟨c, hc, hpc⟩
  obtain ⟨c, hc⟩ := Option.isSome_iff_exists.mp hsome
  simp only [hc]
  have hmem := List.mem_of_find?_eq_some hc
  have hpred := List.find?_some hc
  constructor
  · simpa using hmem
  · simpa using hpred

lemma skipUsedAux_fresh (existing : List String) :
    ∀ (suffix : List String) (idx : ℕ), suffix = alphabetLabels.drop idx →
      ∀ c, alphabetLabels[skipUsedAux existing suffix idx]? = some c →
        c ∉ existing := by
  intro suffix
  induction suffix with
  | nil =>
    intro idx hdrop c hc
    have hlen : alphabetLabels.length ≤ idx := List.drop_eq_nil_iff.mp hdrop.symm
    rw [skipUsedAux, List.getElem?_eq_none hlen] at hc
    cases hc
  | cons hd tl ih =>
    intro idx hdrop c hc
    have hhd : alphabetLabels[idx]? = some hd := by
      have h0 : (alphabetLabels.drop idx)[0]? = some hd := by
        rw [← hdrop]
        simp
      rwa [List.getElem?_drop, Nat.add_zero] at h0
    have htl : tl = alphabetLabels.drop (idx + 1) := by
      have h1 : (alphabetLabels.drop idx).tail = alphabetLabels.drop (idx + 1) :=
        List.tail_drop _ _
      rw [← hdrop] at h1
      exact h1
    rw [skipUsedAux] at hc
    by_cases hmem : hd ∈ existing
    · rw [if_pos hmem] at hc
      exact ih (idx + 1) htl c hc
    · rw [if_neg hmem] at hc
      rw [hhd] at hc
      injection hc with hce
      exact fun hcon => hmem (hce ▸ hcon)

lemma skipUsed_fresh (existing : List String) (idx : ℕ) (c : String)
    (hc : alphabetLabels[skipUsed existing idx]? = some c) : c ∉ existing :=
  skipUsedAux_fresh existing (alphabetLabels.drop idx) idx rfl c hc

lemma mem_alphabetLabels_head (s : String) (h : s ∈ alphabetLabels) :
    s.data.head? ≠ some '?' := by
  fin_cases h <;> decide

lemma fallback_head (x : String) : ("?" ++ x).data.head? = some '?' := by
  rw [String.data_append]
  rfl

lemma fallback_not_mem_alphabet (x : String) : ("?" ++ x) ∉ alphabetLabels :=
  fun h => mem_alphabetLabels_head _ h (fallback_head x)

lemma autoAssignLabels_fresh_nodup :
    ∀ (n : ℕ) (existing : List String) (labelIndex i : ℕ),
      (autoAssignLabels existing labelIndex i n).all
        (fun l => alphabetLabels.contains l) = true →
      (autoAssignLabels existing labelIndex i n).Nodup ∧
        ∀ l ∈ autoAssignLabels existing labelIndex i n, l ∉ existing := by
  intro n
  induction n with
  | zero =>
    intro existing labelIndex i _
    exact ⟨List.nodup_nil, by simp [autoAssignLabels]⟩
  | succ n ih =>
    intro existing labelIndex i h
    rw [autoAssignLabels] at h ⊢
    set idx := skipUsed existing labelIndex with hidx
    cases halph : alphabetLabels[idx]? with
    | none =>
      exfalso
      simp only [halph] at h
      have hhead := (List.all_eq_true.mp h) ("?" ++ toString (i + 1)) (by simp)
      have : ("?" ++ toString (i + 1)) ∈ alphabetLabels := by simpa using hhead
      exact fallback_not_mem_alphabet _ this
    | some c =>
      simp only [halph] at h ⊢
      have hfresh : c ∉ existing := skipUsed_fresh existing labelIndex c halph
      have htail :
          (autoAssignLabels (c :: existing) (idx + 1) (i + 1) n).all
            (fun l => alphabetLabels.contains l) = true := by
        rw [List.all_eq_true] at h ⊢
        intro l hl
        exact h l (by simp [hl])
      obtain ⟨hnodup, hnotin⟩ := ih (c :: existing) (idx + 1) (i + 1) htail
      refine ⟨List.nodup_cons.mpr ⟨?_, hnodup⟩, ?_⟩
      · intro hcmem
        exact (hnotin c hcmem) (by simp)
      · intro l hl
        rcases List.mem_cons.mp hl with rfl | hl'
        · exact hfresh
        · intro hcon
          exact (hnotin l hl') (by simp [hcon])

/-- C2 counterexample: starting from the empty store, 28 consecutive manual
draw commits exhaust the 26 letters, after which the manual path's fallback
label is the constant "?" rather than a numbered "?<n>", so the last two
shapes share the label "?" and global label uniqueness fails. -/
theorem label_uniqueness_counterexample :
    hasDuplicateLabels (addManyCircles [] 28) = true := by decide

/-- C2 amended: while some letter a-z is still unused, the manual path's
getNextLabel returns an unused letter (so a draw commit preserves global
label uniqueness), and one auto-detect run whose labels stay within the
letter range assigns pairwise distinct labels that avoid every existing
label; but the fallback tiers differ — the manual path returns the constant
"?" while the auto path returns "?<i+1>" — so uniqueness is only guaranteed
before the alphabet is exhausted. -/
theorem label_uniqueness_amended :
    (∀ shapes : List Shape,
      alphabetLabels.any
        (fun c => !((shapes.map fun s => s.label).contains c)) = true →
      alphabetLabels.contains (getNextLabel shapes) = true ∧
        (shapes.map fun s => s.label).contains (getNextLabel shapes) = false) ∧
    (∀ (shapes : List Shape) (mode : DrawMode) (draft : Draft)
       (newId : String) (imageIndex : ℕ) (color : ℕ × ℕ × ℕ),
      alphabetLabels.any
        (fun c => !((shapes.map fun s => s.label).contains c)) = true →
      hasDuplicateLabels shapes = false →
      hasDuplicateLabels
        (handleDrawCommit shapes mode draft newId imageIndex color) = false) ∧
    (∀ (n : ℕ) (existingLabels : List String) (labelIndex i : ℕ),
      (autoAssignLabels existingLabels labelIndex i n).all
        (fun l => alphabetLabels.contains l) = true →
      (autoAssignLabels existingLabels labelIndex i n).Nodup ∧
        ∀ l ∈ autoAssignLabels existingLabels labelIndex i n,
          l ∉ existingLabels) := by
  refine ⟨getNextLabel_fresh, ?_, autoAssignLabels_fresh_nodup⟩
  intro shapes mode draft newId imageIndex color hunused hnodup
  rw [hasDuplicateLabels_eq_false_iff] at hnodup ⊢
  unfold handleDrawCommit
  cases hcommit : commitDraft mode draft (getNextLabel shapes) newId imageIndex color with
  | none => exact hnodup
  | some s =>
    have hlabel : s.label = getNextLabel shapes := by
      cases mode with
      | rectangle =>
        simp only [commitDraft] at hcommit
        split at hcommit
        · exact Option.noConfusion hcommit
        · injection hcommit with hs
          rw [← hs]
      | circle =>
        simp only [commitDraft] at hcommit
        split at hcommit
        · exact Option.noConfusion hcommit
        · injection hcommit with hs
          rw [← hs]
    have hfresh := (getNextLabel_fresh shapes hunused).2
    rw [List.map_append]
    simp only [List.map_cons, List.map_nil]
    rw [List.nodup_append]
    refine ⟨hnodup, List.nodup_singleton _, ?_⟩
    intro a ha hb
    rw [List.mem_singleton.mp hb, hlabel] at ha
    rw [show ((shapes.map fun s => s.label).contains (getNextLabel shapes)) =
      true from by simpa using ha] at hfresh
    cases hfresh

/-- Witness for C2 amended at a two-shape store and a two-candidate
auto-detect run. -/
theorem label_uniqueness_amended_witness :
    alphabetLabels.any
      (fun c => !((demoShapes.map fun s => s.label).contains c)) = true ∧
    alphabetLabels.contains (getNextLabel demoShapes) = true ∧
    (demoShapes.map fun s => s.label).contains (getNextLabel demoShapes) = false ∧
    hasDuplicateLabels demoShapes = false ∧
    hasDuplicateLabels
      (handleDrawCommit demoShapes DrawMode.circle c9Draft "w2" 0 (0, 0, 0)) = false ∧
    (autoAssignLabels ["a"] 0 0 2).all (fun l => alphabetLabels.contains l) = true ∧
    (autoAssignLabels ["a"] 0 0 2).Nodup := by
  refine ⟨by decide, ?_, ?_, by decide, ?_, by decide, ?_⟩
  · exact (label_uniqueness_amended.1 demoShapes (by decide)).1
  · exact (label_uniqueness_amended.1 demoShapes (by decide)).2
  · exact label_uniqueness_amended.2.1 demoShapes DrawMode.circle c9Draft "w2" 0 (0, 0, 0)
      (by decide) (by decide)
  · exact (label_uniqueness_amended.2.2 2 ["a"] 0 0 (by decide)).1

lemma rectPasses_true_iff (settings : DetectionSettings) (c : Contour) :
    rectPasses settings c = true ↔
      (settings.minArea ≤ c.area ∧ c.area ≤ settings.maxArea ∧ c.approxRows = 4 ∧
        1 / 2 < c.rectW / c.rectH ∧ c.rectW / c.rectH < 2) := by
  simp [rectPasses, not_or, not_lt, and_assoc]

lemma rectDetectLoop_mem (settings : DetectionSettings)
    (colorOf : Contour → ℕ × ℕ × ℕ) (idOf : ℕ → String) (imageIndex : ℕ) :
    ∀ (contours : List Contour) (existingLabels : List String)
      (labelIndex i : ℕ) (s : Shape),
      s ∈ rectDetectLoop settings colorOf idOf imageIndex
        existingLabels labelIndex i contours →
      ∃ c, c ∈ contours ∧ rectPasses settings c = true ∧
        s.x = c.rectX ∧ s.y = c.rectY ∧
        s.width = some c.rectW ∧ s.height = some c.rectH := by
  intro contours
  induction contours with
  | nil =>
    intro existingLabels labelIndex i s hs
    simp [rectDetectLoop] at hs
  | cons c rest ih =>
    intro existingLabels labelIndex i s hs
    rw [rectDetectLoop] at hs
    by_cases hp : rectPasses settings c = true
    · rw [if_pos hp] at hs
      rcases List.mem_cons.mp hs with rfl | hs'
      · exact ⟨c, by simp, hp, rfl, rfl, rfl, rfl⟩
      · obtain ⟨c', hc', hrest⟩ := ih _ _ _ s hs'
        exact ⟨c', by simp [hc'], hrest⟩
    · rw [if_neg hp] at hs
      obtain ⟨c', hc', hrest⟩ := ih _ _ _ s hs
      exact ⟨c', by simp [hc'], hrest⟩

lemma rectDetectLoop_length (settings : DetectionSettings)
    (colorOf : Contour → ℕ × ℕ × ℕ) (idOf : ℕ → String) (imageIndex : ℕ) :
    ∀ (contours : List Contour) (existingLabels : List String)
      (labelIndex i : ℕ),
      (rectDetectLoop settings colorOf idOf imageIndex
        existingLabels labelIndex i contours).length =
        (contours.filter fun c => rectPasses settings c).length := by
  intro contours
  induction contours with
  | nil =>
    intro existingLabels labelIndex i
    simp [rectDetectLoop]
  | cons c rest ih =>
    intro existingLabels labelIndex i
    rw [rectDetectLoop]
    by_cases hp : rectPasses settings c = true
    · rw [if_pos hp, List.filter_cons_of_pos hp]
      simp [ih]
    · rw [if_neg hp, List.filter_cons_of_neg (by simpa using hp)]
      exact ih _ _ _

/-- C7: rectangle detection emits a shape only for contours passing all
three filters — area within [minArea, maxArea], exactly 4 approximated
vertices, and bounding-rectangle aspect within [0.5, 2.0] — every contour
failing a filter passes rectPasses = false and so is rejected, and the
number of emitted shapes equals the number of passing contours. -/
theorem rectangle_detection_filters :
    (∀ (settings : DetectionSettings) (colorOf : Contour → ℕ × ℕ × ℕ)
       (idOf : ℕ → String) (imageIndex : ℕ) (existingLabels : List String)
       (contours : List Contour),
      (autoDetectRectangles settings colorOf idOf imageIndex
        existingLabels contours).Forall
        (fun s => ∃ c, c ∈ contours ∧
          settings.minArea ≤ c.area ∧ c.area ≤ settings.maxArea ∧
          c.approxRows = 4 ∧
          1 / 2 ≤ c.rectW / c.rectH ∧ c.rectW / c.rectH ≤ 2 ∧
          s.x = c.rectX ∧ s.y = c.rectY ∧
          s.width = some c.rectW ∧ s.height = some c.rectH)) ∧
    (∀ (settings : DetectionSettings) (c : Contour),
      rectPasses settings c = false ∨
        (settings.minArea ≤ c.area ∧ c.area ≤ settings.maxArea ∧
          c.approxRows = 4 ∧
          1 / 2 ≤ c.rectW / c.rectH ∧ c.rectW / c.rectH ≤ 2)) ∧
    (∀ (settings : DetectionSettings) (colorOf : Contour → ℕ × ℕ × ℕ)
       (idOf : ℕ → String) (imageIndex : ℕ) (existingLabels : List String)
       (contours : List Contour),
      (autoDetectRectangles settings colorOf idOf imageIndex
        existingLabels contours).length =
        (contours.filter fun c => rectPasses settings c).length) := by
  refine ⟨?_, ?_, ?_⟩
  · intro settings colorOf idOf imageIndex existingLabels contours
    rw [List.forall_iff_forall_mem]
    intro s hs
    obtain ⟨c, hc, hp, hgeom⟩ :=
      rectDetectLoop_mem settings colorOf idOf imageIndex contours
        existingLabels 0 0 s hs
    obtain ⟨h1, h2, h3, h4, h5⟩ := (rectPasses_true_iff settings c).mp hp
    exact ⟨c, hc, h1, h2, h3, le_of_lt h4, le_of_lt h5, hgeom⟩
  · intro settings c
    by_cases hp : rectPasses settings c = true
    · obtain ⟨h1, h2, h3, h4, h5⟩ := (rectPasses_true_iff settings c).mp hp
      exact Or.inr ⟨h1, h2, h3, le_of_lt h4, le_of_lt h5⟩
    · exact Or.inl (by simpa using hp)
  · intro settings colorOf idOf imageIndex existingLabels contours
    exact rectDetectLoop_length settings colorOf idOf imageIndex contours
      existingLabels 0 0

lemma circleDetectLoop_mem (colorOf : CircleCandidate → ℕ × ℕ × ℕ)
    (idOf : ℕ → String) (imageIndex : ℕ) :
    ∀ (candidates : List CircleCandidate) (existingLabels : List String)
      (labelIndex i : ℕ) (s : Shape),
      s ∈ circleDetectLoop colorOf idOf imageIndex
        existingLabels labelIndex i candidates →
      ∃ c, c ∈ candidates ∧ s.x = (roundQ c.x : ℚ) ∧ s.y = (roundQ c.y : ℚ) ∧
        s.radius = some (roundQ c.radius : ℚ) ∧ s.color = colorOf c := by
  intro candidates
  induction candidates with
  | nil =>
    intro existingLabels labelIndex i s hs
    simp [circleDetectLoop] at hs
  | cons c rest ih =>
    intro existingLabels labelIndex i s hs
    rw [circleDetectLoop] at hs
    rcases List.mem_cons.mp hs with rfl | hs'
    · exact ⟨c, by simp, rfl, rfl, rfl, rfl⟩
    · obtain ⟨c', hc', hrest⟩ := ih _ _ _ s hs'
      exact ⟨c', by simp [hc'], hrest⟩

/-- C8: with a region of interest supplied, circle detection equals the
plain detection run on the candidates whose center passes the (inclusive)
center-in-ROI test — candidates outside the ROI are discarded before any
labeling or color sampling — and every emitted shape comes from a candidate
whose center lies within the ROI. -/
theorem roi_restricts_circle_detection :
    (∀ (colorOf : CircleCandidate → ℕ × ℕ × ℕ) (idOf : ℕ → String)
       (imageIndex : ℕ) (existingLabels : List String)
       (candidates : List CircleCandidate) (roi : BoundingBox),
      autoDetectCirclesRoi colorOf idOf imageIndex existingLabels
        candidates (some roi) =
        autoDetectCircles colorOf idOf imageIndex existingLabels
          (candidates.filter fun c => centerInRoi roi c)) ∧
    (∀ (colorOf : CircleCandidate → ℕ × ℕ × ℕ) (idOf : ℕ → String)
       (imageIndex : ℕ) (existingLabels : List String)
       (candidates : List CircleCandidate) (roi : BoundingBox),
      (autoDetectCirclesRoi colorOf idOf imageIndex existingLabels
        candidates (some roi)).Forall
        (fun s => ∃ c, c ∈ candidates ∧ centerInRoi roi c = true ∧
          s.x = (roundQ c.x : ℚ) ∧ s.y = (roundQ c.y : ℚ) ∧
          s.radius = some (roundQ c.radius : ℚ) ∧ s.color = colorOf c)) := by
  constructor
  · intro colorOf idOf imageIndex existingLabels candidates roi
    rfl
  · intro colorOf idOf imageIndex existingLabels candidates roi
    rw [List.forall_iff_forall_mem]
    intro s hs
    obtain ⟨c, hc, hrest⟩ :=
      circleDetectLoop_mem colorOf idOf imageIndex
        (candidates.filter fun c => centerInRoi roi c) existingLabels 0 0 s hs
    have hmf := List.mem_filter.mp hc
    exact ⟨c, hmf.1, hmf.2, hrest⟩

lemma sum_map_eq_const {α : Type} (l : List α) (f : α → ℕ) (k : ℕ)
    (h : ∀ a ∈ l, f a = k) : (l.map f).sum = k * l.length := by
  induction l with
  | nil => simp
  | cons hd tl ih =>
    simp only [List.map_cons, List.sum_cons, List.length_cons, h hd (by simp)]
    rw [ih fun a ha => h a (by simp [ha])]
    ring

lemma mem_discPixels (radius px py : ℕ) :
    (px, py) ∈ discPixels radius ↔
      (px < 2 * radius ∧ py < 2 * radius ∧
        ((px : ℤ) - radius) ^ 2 + ((py : ℤ) - radius) ^ 2 ≤ (radius : ℤ) ^ 2) := by
  simp only [discPixels, List.mem_flatMap, List.mem_filterMap, List.mem_range]
  constructor
  · rintro ⟨py', hpy', px', hpx', hif⟩
    by_cases hcond :
        ((px' : ℤ) - radius) ^ 2 + ((py' : ℤ) - radius) ^ 2 ≤ (radius : ℤ) ^ 2
    · rw [if_pos hcond] at hif
      injection hif with h1
      rw [Prod.mk.injEq] at h1
      obtain ⟨rfl, rfl⟩ := h1
      exact ⟨hpx', hpy', hcond⟩
    · rw [if_neg hcond] at hif
      cases hif
  · rintro ⟨hpx, hpy, hcond⟩
    exact ⟨py, hpy, px, hpx, by rw [if_pos hcond]⟩

/-- C6: the circular sampling mask keeps exactly the window pixels passing
the inclusive disc test (px - r)² + (py - r)² ≤ r² (pixels in the bounding
square but outside the disc are excluded), and sampling a synthetic image
that is pure red on the inclusive disc of radius R about the circle's center
and pure blue outside returns pure red for every sampling percentage up to
100, for any circle of radius at least 1 whose sampling window stays inside
the image. -/
theorem circle_sampling_pure_red :
    (∀ (radius px py : ℕ),
      (px, py) ∈ discPixels radius ↔
        (px < 2 * radius ∧ py < 2 * radius ∧
          ((px : ℤ) - radius) ^ 2 + ((py : ℤ) - radius) ^ 2 ≤ (radius : ℤ) ^ 2)) ∧
    (∀ (centerX centerY : ℤ) (bigR frac : ℕ),
      1 ≤ bigR → frac ≤ 100 → (bigR : ℤ) ≤ centerX → (bigR : ℤ) ≤ centerY →
      sampleCircleColor (redBlueImg centerX centerY bigR) centerX centerY
        bigR frac = (255, 0, 0)) := by
  refine ⟨mem_discPixels, ?_⟩
  intro centerX centerY bigR frac hR hfrac hcx hcy
  rw [sampleCircleColor]
  set r := max 1 (bigR * frac / 100) with hrdef
  have hr1 : 1 ≤ r := le_max_left _ _
  have hrR : r ≤ bigR := by
    refine max_le hR ?_
    calc bigR * frac / 100 ≤ bigR * 100 / 100 :=
          Nat.div_le_div_right (Nat.mul_le_mul_left _ hfrac)
      _ = bigR := Nat.mul_div_cancel bigR (by norm_num)
  have hrz : (r : ℤ) ≤ (bigR : ℤ) := Int.ofNat_le.mpr hrR
  have hx : max 0 (centerX - (r : ℤ)) = centerX - r :=
    max_eq_right (by omega)
  have hy : max 0 (centerY - (r : ℤ)) = centerY - r :=
    max_eq_right (by omega)
  have hred : ∀ p ∈ discPixels r,
      redBlueImg centerX centerY bigR (centerX - r + (p.1 : ℤ))
        (centerY - r + (p.2 : ℤ)) = (255, 0, 0) := by
    rintro ⟨px, py⟩ hp
    obtain ⟨hpx, hpy, hcond⟩ := (mem_discPixels r px py).mp hp
    rw [redBlueImg]
    have hdx : centerX - r + (px : ℤ) - centerX = (px : ℤ) - r := by ring
    have hdy : centerY - r + (py : ℤ) - centerY = (py : ℤ) - r := by ring
    rw [if_pos ?_]
    rw [hdx, hdy]
    calc ((px : ℤ) - r) ^ 2 + ((py : ℤ) - r) ^ 2 ≤ (r : ℤ) ^ 2 := hcond
      _ ≤ (bigR : ℤ) ^ 2 := by
          have h0 : (0 : ℤ) ≤ (r : ℤ) := Int.ofNat_nonneg r
          exact pow_le_pow_left₀ h0 hrz 2
  have hcenter : ((r : ℕ), (r : ℕ)) ∈ discPixels r := by
    rw [mem_discPixels]
    refine ⟨by omega, by omega, by simp⟩
  have hlen : discPixels r ≠ [] := List.ne_nil_of_mem hcenter
  have hcount : 0 < (discPixels r).length := List.length_pos.mpr hlen
  rw [extractAverageColor]
  rw [if_neg (by omega : ¬ 2 * r = 0)]
  rw [if_neg (by omega : ¬ (discPixels r).length = 0)]
  have hsumr :
      ((discPixels r).map fun p =>
        (redBlueImg centerX centerY bigR
          (max 0 (centerX - (r : ℤ)) + (p.1 : ℤ))
          (max 0 (centerY - (r : ℤ)) + (p.2 : ℤ))).1).sum =
        255 * (discPixels r).length := by
    refine sum_map_eq_const _ _ _ ?_
    intro p hp
    rw [hx, hy, hred p hp]
  have hsumg :
      ((discPixels r).map fun p =>
        (redBlueImg centerX centerY bigR
          (max 0 (centerX - (r : ℤ)) + (p.1 : ℤ))
          (max 0 (centerY - (r : ℤ)) + (p.2 : ℤ))).2.1).sum =
        0 * (discPixels r).length := by
    refine sum_map_eq_const _ _ _ ?_
    intro p hp
    rw [hx, hy, hred p hp]
  have hsumb :
      ((discPixels r).map fun p =>
        (redBlueImg centerX centerY bigR
          (max 0 (centerX - (r : ℤ)) + (p.1 : ℤ))
          (max 0 (centerY - (r : ℤ)) + (p.2 : ℤ))).2.2).sum =
        0 * (discPixels r).length := by
    refine sum_map_eq_const _ _ _ ?_
    intro p hp
    rw [hx, hy, hred p hp]
  rw [hsumr, hsumg, hsumb]
  have h255 : roundDiv (255 * (discPixels r).length) (discPixels r).length = 255 := by
    rw [roundDiv]
    have harith : 2 * (255 * (discPixels r).length) + (discPixels r).length =
        511 * (discPixels r).length := by ring
    rw [harith, mul_comm 511 (discPixels r).length,
      mul_comm 2 (discPixels r).length,
      Nat.mul_div_mul_left 511 2 hcount]
  have h0 : roundDiv (0 * (discPixels r).length) (discPixels r).length = 0 := by
    rw [roundDiv, Nat.zero_mul, Nat.mul_zero, Nat.zero_add]
    exact Nat.div_eq_of_lt (by omega)
  dsimp only
  rw [h255, h0]

/-- Witness for C6 at a circle of radius 2 centered at (5,5) with a 70
percent sampling fraction. -/
theorem circle_sampling_pure_red_witness :
    (1 : ℕ) ≤ 2 ∧ (70 : ℕ) ≤ 100 ∧ ((2 : ℕ) : ℤ) ≤ (5 : ℤ) ∧
    sampleCircleColor (redBlueImg 5 5 2) 5 5 2 70 = (255, 0, 0) :=
  ⟨by norm_num, by norm_num, by norm_num,
    circle_sampling_pure_red.2 5 5 2 70 (by norm_num) (by norm_num)
      (by norm_num) (by norm_num)⟩

end ChemClub
